import Mathlib

/-!
Verification of the mendeleevapp data-shaping pipeline.

This file gives a shallow embedding of the column-derivation code of the
repository (`app/datautils.py` and `app/views.py`) and proves properties of
it.  A dataframe is modelled as a `List Row`; a pandas column of nullable
values is an `Option`-valued field (or, generically, a `List (Option _)`);
operations that in pandas mutate a frame in place are modelled as functions
returning the updated frame.  Machine floats are modelled by exact rationals.
The matplotlib colormap registry (an excluded third-party collaborator) is
modelled by a finite name-indexed table of byte-valued colormap functions.
-/

namespace Mendel

/-! ## Definitions: the embedded pipeline -/

def hexChars : List Char := "0123456789abcdef".data

def isHexDigitChar (c : Char) : Bool := hexChars.contains c

def hexDig (n : Nat) : Char := hexChars.getD (n % 16) '0'

/-- Model of `matplotlib.colors.rgb2hex` on a byte triple: the string
`#rrggbb` with two lowercase hex digits per channel. -/
def rgb2hex (c : Nat × Nat × Nat) : String :=
  String.mk ['#', hexDig (c.1 / 16), hexDig (c.1 % 16),
             hexDig (c.2.1 / 16), hexDig (c.2.1 % 16),
             hexDig (c.2.2 / 16), hexDig (c.2.2 % 16)]

/-- A valid display color: exactly 7 characters, `#` followed by six hex
digits. -/
def isHexColor (s : String) : Bool :=
  s.length == 7 && s.data.headD ' ' == '#' && s.data.tail.all isHexDigitChar

/-- One row of the elements dataframe, restricted to the columns the
derivation pipeline reads or writes.  Nullable columns are `Option`s;
float-valued columns are rationals. -/
structure Row where
  atomic_number : Int
  symbol : String
  name : String
  block : String
  period : Int
  group_id : Option Int
  series_id : Option Int
  name_series : Option String
  name_group : Option String
  property : Option ℚ
  x : Option ℚ
  y : Option ℚ
  y_symbol : Option ℚ
  y_anumber : Option ℚ
  y_name : Option ℚ
  group_name : Option String
  color : Option String
  legend : Option String
  temp : Option ℚ
  deriving DecidableEq, Repr

def listMin {α : Type} [LinearOrder α] : List α → Option α
  | [] => none
  | a :: l =>
    match listMin l with
    | none => some a
    | some b => some (min a b)

def listMax {α : Type} [LinearOrder α] : List α → Option α
  | [] => none
  | a :: l =>
    match listMax l with
    | none => some a
    | some b => some (max a b)

/-- Atomic numbers of the rows with `block == 'f'` and the given period
(the selection `mask` of the f-block loop). -/
def fAN (rows : List Row) (p : Int) : List Int :=
  (rows.filter (fun r => r.block == "f" && r.period == p)).map (fun r => r.atomic_number)

/-- `elements.loc[mask, 'atomic_number'].min()` of the f-block loop:
`none` models pandas returning NaN on an empty selection. -/
def fMin (rows : List Row) (p : Int) : Option Int := listMin (fAN rows p)

/-- Lines 62-68 of `datautils.py`: `x = group_id` (rows with non-null
group_id), `y = period` (all rows), `group_name` from `group_id` or
`'f block'`. -/
def step1 (r : Row) : Row :=
  match r.group_id with
  | some g => { r with x := some ((g : ℚ)), y := some ((r.period : ℚ)),
                       group_name := some (toString g) }
  | none => { r with y := some ((r.period : ℚ)), group_name := some "f block" }

/-- Body of the f-block loop for one period: rows in the mask get
`x = atomic_number - min + 3` and `y = period + 2.5`; with an empty mask
(`m? = none`) the assignment touches no row. -/
def fAdjust (p : Int) (m? : Option Int) (r : Row) : Row :=
  match m? with
  | none => r
  | some m =>
    if r.block = "f" ∧ r.period = p then
      { r with x := some (((r.atomic_number - m + 3 : Int) : ℚ)),
               y := some ((r.period : ℚ) + 5 / 2) }
    else r

/-- One iteration of the f-block loop of `add_plot_columns`. -/
def fStep (rows : List Row) (p : Int) : List Row :=
  rows.map (fAdjust p (fMin rows p))

/-- Lines 78-80 of `datautils.py`: label-offset columns from `y`. -/
def labelStep (r : Row) : Row :=
  { r with y_symbol := r.y.map (fun v => v - 1 / 20),
           y_anumber := r.y.map (fun v => v - 3 / 10),
           y_name := r.y.map (fun v => v + 9 / 50) }

/-- `datautils.add_plot_columns`: the x/y/group_name assignments, the
f-block loop over periods 6 and 7, then the label-offset columns. -/
def add_plot_columns (rows : List Row) : List Row :=
  (fStep (fStep (rows.map step1) 6) 7).map labelStep

/-- A registered colormap, as the pipeline uses it: a function from a
normalized scalar to an RGB byte triple.  The actual color data of
matplotlib's named maps is third-party; the registry entries below share a
stand-in shade function, which clamps to the byte range exactly as the
colormap lookup clamps its input to [0, 1]. -/
structure Colormap where
  rgb : ℚ → Nat × Nat × Nat

def clampByte (t : ℚ) : Nat :=
  let z : Int := Int.floor (t * 255)
  if z < 0 then 0 else if z > 255 then 255 else z.toNat

def modelShade (t : ℚ) : Nat × Nat × Nat := (clampByte t, clampByte t, clampByte t)

/-- Model of matplotlib's colormap registry (`cmx.get_cmap` succeeds exactly
on registered names). -/
def cmapRegistry : List (String × Colormap) :=
  [("viridis", ⟨modelShade⟩), ("inferno", ⟨modelShade⟩),
   ("magma", ⟨modelShade⟩), ("plasma", ⟨modelShade⟩), ("jet", ⟨modelShade⟩)]

/-- `cmx.get_cmap`: look a colormap up by name; `none` models the
ValueError raised on an unregistered name. -/
def get_cmap (name : String) : Option Colormap :=
  (cmapRegistry.find? (fun pr => pr.1 == name)).map (fun pr => pr.2)

/-- `matplotlib.colors.Normalize(vmin, vmax)` applied to a value: linear
rescale by the observed min/max; equal or absent bounds give 0. -/
def normalizeQ (vmin vmax : Option ℚ) (v : ℚ) : ℚ :=
  match vmin, vmax with
  | some a, some b => if b = a then 0 else (v - a) / (b - a)
  | _, _ => 0

/-- Colormap bad-color bytes used by `to_rgba` for NaN input (rgba 0,0,0,0;
its hex form is then overwritten by the missing color). -/
def badRGB : Nat × Nat × Nat := (0, 0, 0)

/-- `views.colormap_column`: fails when the colormap name is unregistered
(before any color is produced); otherwise builds the hex column from the
normalized values and overwrites the null-mask entries with `missing`.
The input frame is threaded through and returned alongside the new column:
every statement of the source writes only to the fresh frame `out`. -/
def colormap_column (df : List Row) (column : Row → Option ℚ)
    (cmap : String) (missing : String) : Except String (List Row × List String) :=
  match get_cmap cmap with
  | none => .error "UnknownColormap"
  | some cm =>
    let vals := df.map column
    let present := vals.filterMap id
    let vmin := listMin present
    let vmax := listMax present
    let hexes := vals.map (fun v? =>
      match v? with
      | none => rgb2hex badRGB
      | some v => rgb2hex (cm.rgb (normalizeQ vmin vmax v)))
    let out := List.zipWith (fun v? h => if Option.isNone v? then missing else h) vals hexes
    .ok (df, out)

def uniquesAux (seen : List String) : List String → List String
  | [] => []
  | a :: as => if a ∈ seen then uniquesAux seen as else a :: uniquesAux (a :: seen) as

/-- `df['block'].unique()`: the distinct block values in order of first
appearance. -/
def uniqueBlocks (df : List Row) : List String :=
  uniquesAux [] (df.map (fun r => r.block))

/-- The integer code `dict((b, i) for i, b in enumerate(df['block'].unique()))`
assigns to a block value. -/
def blockCode (df : List Row) (b : String) : ℚ :=
  (((uniqueBlocks df).indexOf b : Nat) : ℚ)

/-- `views.set_colors`: branch on `colorby`; the handled branches color via
`colormap_column` (missing color `#ffffff`) and set the legend column; any
other `colorby` value returns the frame unchanged, its color column untouched. -/
def set_colors (df : List Row) (colorby : String) (cmap : String) :
    Except String (List Row) :=
  if colorby = "block" then
    match colormap_column (df.map (fun r => { r with temp := some (blockCode df r.block) }))
        (fun r => r.temp) cmap "#ffffff" with
    | .error e => .error e
    | .ok (df2, cols) =>
      .ok (List.zipWith (fun r c => { r with color := some c, legend := some r.block }) df2 cols)
  else if colorby = "period" then
    match colormap_column df (fun r => some ((r.period : ℚ))) cmap "#ffffff" with
    | .error e => .error e
    | .ok (df2, cols) =>
      .ok (List.zipWith (fun r c =>
        { r with color := some c, legend := some (toString r.period) }) df2 cols)
  else if colorby = "group_id" then
    match colormap_column df (fun r => r.group_id.map (fun g => (g : ℚ))) cmap "#ffffff" with
    | .error e => .error e
    | .ok (df2, cols) =>
      .ok (List.zipWith (fun r c => { r with color := some c, legend := r.name_group }) df2 cols)
  else if colorby = "series_id" then
    match colormap_column df (fun r => r.series_id.map (fun s => (s : ℚ))) cmap "#ffffff" with
    | .error e => .error e
    | .ok (df2, cols) =>
      .ok (List.zipWith (fun r c => { r with color := some c, legend := r.name_series }) df2 cols)
  else if colorby = "property" then
    match colormap_column df (fun r => r.property) cmap "#ffffff" with
    | .error e => .error e
    | .ok (df2, cols) =>
      .ok (List.zipWith (fun r c => { r with color := some c }) df2 cols)
  else
    .ok df

/-- The nullable input feeding the color map for a given `colorby`, read
off a (possibly already colored) row. -/
def colorInput (colorby : String) (r : Row) : Option ℚ :=
  if colorby = "block" then r.temp
  else if colorby = "period" then some ((r.period : ℚ))
  else if colorby = "group_id" then r.group_id.map (fun g => (g : ℚ))
  else if colorby = "series_id" then r.series_id.map (fun s => (s : ℚ))
  else if colorby = "property" then r.property
  else none

/-- One cell of a pandas column: NaN, a float, an integer, or a string. -/
inductive Cell where
  | null : Cell
  | fl (q : ℚ) : Cell
  | iv (n : Int) : Cell
  | st (s : String) : Cell
  deriving DecidableEq, Repr

/-- A column's dtype is float64 exactly when every cell is a float or NaN. -/
def isFloatDtype (col : List Cell) : Bool :=
  col.all (fun c => match c with | .fl _ => true | .null => true | _ => false)

/-- numpy's round-half-to-even on an exact rational. -/
def roundHalfEven (q : ℚ) : Int :=
  if q - (Int.floor q : ℚ) = 1 / 2 then
    (if Int.floor q % 2 = 0 then Int.floor q else Int.floor q + 1)
  else round q

/-- `Series.round(decimals=4)` on one float value. -/
def npRound4 (q : ℚ) : ℚ := ((roundHalfEven (q * 10000) : Int) : ℚ) / 10000

/-- Fractional digits (out of 4) of a decimal string: trailing zeros
stripped, at least one digit kept — mirroring `str()` of a float whose
value has at most four decimal places. -/
def frac4Str (fp : Nat) : String :=
  let d1 := fp / 1000 % 10
  let d2 := fp / 100 % 10
  let d3 := fp / 10 % 10
  let d4 := fp % 10
  if d4 ≠ 0 then
    String.mk [Nat.digitChar d1, Nat.digitChar d2, Nat.digitChar d3, Nat.digitChar d4]
  else if d3 ≠ 0 then String.mk [Nat.digitChar d1, Nat.digitChar d2, Nat.digitChar d3]
  else if d2 ≠ 0 then String.mk [Nat.digitChar d1, Nat.digitChar d2]
  else String.mk [Nat.digitChar d1]

/-- Decimal string of a rational whose denominator divides 10^4 (the exact
form `str()` yields on such float values, e.g. `3.1416`, `1.0`, `-2.5`). -/
def str4 (q : ℚ) : String :=
  let m := roundHalfEven (q * 10000)
  let sign := if m < 0 then "-" else ""
  let n := m.natAbs
  sign ++ toString (n / 10000) ++ "." ++ frac4Str (n % 10000)

/-- `data[prop].round(decimals=4)` cellwise. -/
def roundCol (col : List Cell) : List Cell :=
  col.map (fun c => match c with | .fl q => .fl (npRound4 q) | c => c)

/-- `.astype(str)` cellwise: NaN stringifies to `"nan"`. -/
def astypeStr (col : List Cell) : List Cell :=
  col.map (fun c =>
    match c with
    | .null => .st "nan"
    | .fl q => .st (str4 q)
    | .iv n => .st (toString n)
    | .st s => .st s)

/-- Lines 268-269 of `views.py`: round to 4 decimals and stringify, but
only when the selected column's dtype is float64; otherwise the column is
left untouched. -/
def formatProp (col : List Cell) : List Cell :=
  if isFloatDtype col then astypeStr (roundCol col) else col

/-- A row transformation that keeps the base (input) columns of the layout
derivation. -/
def baseEq (f : Row → Row) : Prop :=
  ∀ r : Row, (f r).atomic_number = r.atomic_number ∧ (f r).block = r.block ∧
    (f r).period = r.period ∧ (f r).group_id = r.group_id

/-- The whole layout derivation, restricted to one row, given the two
f-block minima of the table. -/
def layoutRow (m6 m7 : Option Int) (r : Row) : Row :=
  labelStep (fAdjust 7 m7 (fAdjust 6 m6 (step1 r)))

/-- Sample rows used to instantiate the theorems on concrete tables. -/
def row0 : Row :=
  { atomic_number := 0, symbol := "", name := "", block := "", period := 0,
    group_id := none, series_id := none, name_series := none, name_group := none,
    property := none, x := none, y := none, y_symbol := none, y_anumber := none,
    y_name := none, group_name := none, color := none, legend := none, temp := none }

def hRow : Row :=
  { row0 with atomic_number := 1, symbol := "H", name := "Hydrogen",
              block := "s", period := 1, group_id := some 1 }

def ceRow : Row :=
  { row0 with atomic_number := 58, symbol := "Ce", name := "Cerium",
              block := "f", period := 6 }

def prRow : Row :=
  { row0 with atomic_number := 59, symbol := "Pr", name := "Praseodymium",
              block := "f", period := 6 }

/-- A row with null group_id outside the f-block masks: its x is never
assigned by the layout derivation. -/
def sRowNoGroup : Row :=
  { row0 with atomic_number := 2, symbol := "Nx", name := "Nox",
              block := "s", period := 1 }

/-- The laid-out form of `hRow` in the table `[hRow, ceRow]`. -/
def hRowLaid : Row :=
  { hRow with x := some 1, y := some 1, y_symbol := some (19 / 20),
              y_anumber := some (7 / 10), y_name := some (59 / 50),
              group_name := some "1" }

/-- The laid-out form of `ceRow` in the table `[hRow, ceRow]`. -/
def ceRowLaid : Row :=
  { ceRow with x := some 3, y := some (17 / 2), y_symbol := some (169 / 20),
               y_anumber := some (41 / 5), y_name := some (217 / 25),
               group_name := some "f block" }

/-- A two-valued sample table with one null in each nullable numeric
column, used to instantiate the colormap theorems. -/
def qRow : Row :=
  { row0 with atomic_number := 3, symbol := "Q", name := "Qu", block := "p",
              period := 2, group_id := some 14, series_id := some 2,
              property := some 1 }

def c3RowsOut : List Row :=
  [{ qRow with color := some "#000000" }, { ceRow with color := some "#ffffff" }]

def qRowColored : Row :=
  { qRow with temp := some 0, color := some "#000000", legend := some "p" }

def ceRowColored : Row :=
  { ceRow with temp := some 1, color := some "#ffffff", legend := some "f" }

/-! ## Theorems -/

theorem hexDig_valid (n : Nat) : isHexDigitChar (hexDig n) = true := by
  have h : ∀ m, m < 16 → isHexDigitChar (hexChars.getD m '0') = true := by decide
  exact h (n % 16) (Nat.mod_lt _ (by norm_num))

theorem isHexColor_rgb2hex (c : Nat × Nat × Nat) : isHexColor (rgb2hex c) = true := by
  simp [isHexColor, rgb2hex, hexDig_valid]

theorem isHexColor_length {s : String} (h : isHexColor s = true) : s.length = 7 := by
  unfold isHexColor at h
  simp only [Bool.and_eq_true, beq_iff_eq] at h
  exact h.1.1

theorem listMin_eq_none_nil {α : Type} [LinearOrder α] {l : List α}
    (h : listMin l = none) : l = [] := by
  cases l with
  | nil => rfl
  | cons a t =>
    unfold listMin at h
    cases ht : listMin t with
    | none => rw [ht] at h; simp at h
    | some c => rw [ht] at h; simp at h

theorem listMin_le {α : Type} [LinearOrder α] {l : List α} {m : α}
    (h : listMin l = some m) : ∀ a ∈ l, m ≤ a := by
  induction l generalizing m with
  | nil => simp [listMin] at h
  | cons a t ih =>
    intro b hb
    unfold listMin at h
    cases ht : listMin t with
    | none =>
      rw [ht] at h
      have hb' : b = a ∨ b ∈ t := by simpa using hb
      rcases hb' with rfl | hbt
      · exact le_of_eq (by injection h with h; exact h.symm)
      · rw [listMin_eq_none_nil ht] at hbt
        simp at hbt
    | some c =>
      rw [ht] at h
      injection h with h
      subst h
      have hb' : b = a ∨ b ∈ t := by simpa using hb
      rcases hb' with rfl | hbt
      · exact min_le_left _ _
      · exact le_trans (min_le_right _ _) (ih ht b hbt)

theorem listMin_mem {α : Type} [LinearOrder α] {l : List α} {m : α}
    (h : listMin l = some m) : m ∈ l := by
  induction l generalizing m with
  | nil => simp [listMin] at h
  | cons a t ih =>
    unfold listMin at h
    cases ht : listMin t with
    | none => rw [ht] at h; injection h with h; subst h; exact List.mem_cons_self _ _
    | some c =>
      rw [ht] at h
      injection h with h
      subst h
      rcases min_cases a c with ⟨hm, _⟩ | ⟨hm, _⟩
      · rw [hm]; exact List.mem_cons_self _ _
      · rw [hm]; exact List.mem_cons_of_mem _ (ih ht)

theorem step1_base : baseEq step1 := by
  intro r
  unfold step1
  cases r.group_id <;> simp

theorem fAdjust_base (p : Int) (m? : Option Int) : baseEq (fAdjust p m?) := by
  intro r
  unfold fAdjust
  cases m? with
  | none => simp
  | some m => by_cases h : r.block = "f" ∧ r.period = p <;> simp [h]

theorem labelStep_base : baseEq labelStep := by
  intro r
  unfold labelStep
  simp

theorem baseEq_comp {f g : Row → Row} (hf : baseEq f) (hg : baseEq g) :
    baseEq (f ∘ g) := by
  intro r
  obtain ⟨ha, hb, hp, hgi⟩ := hf (g r)
  obtain ⟨ha', hb', hp', hgi'⟩ := hg r
  exact ⟨ha.trans ha', hb.trans hb', hp.trans hp', hgi.trans hgi'⟩

theorem fAN_cons (r : Row) (rows : List Row) (p : Int) :
    fAN (r :: rows) p =
      if r.block == "f" && r.period == p then r.atomic_number :: fAN rows p
      else fAN rows p := by
  unfold fAN
  rw [List.filter_cons]
  split <;> simp_all [fAN]

theorem fAN_map {f : Row → Row} (hf : baseEq f) (rows : List Row) (p : Int) :
    fAN (rows.map f) p = fAN rows p := by
  induction rows with
  | nil => rfl
  | cons r t ih =>
    obtain ⟨ha, hb, hp, _⟩ := hf r
    rw [List.map_cons, fAN_cons, fAN_cons, ha, hb, hp, ih]

theorem fMin_map {f : Row → Row} (hf : baseEq f) (rows : List Row) (p : Int) :
    fMin (rows.map f) p = fMin rows p := by
  unfold fMin
  rw [fAN_map hf]

theorem layoutRow_base (m6 m7 : Option Int) : baseEq (layoutRow m6 m7) :=
  baseEq_comp labelStep_base
    (baseEq_comp (fAdjust_base 7 m7) (baseEq_comp (fAdjust_base 6 m6) step1_base))

theorem apc_eq (rows : List Row) :
    add_plot_columns rows = rows.map (layoutRow (fMin rows 6) (fMin rows 7)) := by
  unfold add_plot_columns fStep
  rw [fMin_map step1_base]
  simp only [List.map_map]
  rw [fMin_map (baseEq_comp (fAdjust_base 6 (fMin rows 6)) step1_base)]
  rfl

theorem fMin_apc (rows : List Row) (p : Int) :
    fMin (add_plot_columns rows) p = fMin rows p := by
  rw [apc_eq, fMin_map (layoutRow_base _ _)]

theorem layoutRow_y_some (m6 m7 : Option Int) (r : Row) :
    (layoutRow m6 m7 r).y ≠ none := by
  unfold layoutRow labelStep fAdjust step1
  cases r.group_id <;> cases m6 <;> cases m7 <;> simp <;> split_ifs <;> simp

theorem layoutRow_x_group (m6 m7 : Option Int) (r : Row) (g : Int)
    (hg : r.group_id = some g) : (layoutRow m6 m7 r).x ≠ none := by
  unfold layoutRow labelStep fAdjust step1
  rw [hg]
  cases m6 <;> cases m7 <;> simp <;> split_ifs <;> simp

theorem layoutRow_f6 (m6 m7 : Option Int) (r : Row) (m : Int)
    (hb : r.block = "f") (hper : r.period = 6) (hm : m6 = some m) :
    (layoutRow m6 m7 r).x = some (((r.atomic_number - m + 3 : Int) : ℚ)) ∧
    (layoutRow m6 m7 r).y = some (((r.period : ℚ)) + 5 / 2) := by
  subst hm
  unfold layoutRow labelStep fAdjust step1
  cases r.group_id <;> cases m7 <;> simp [hb, hper]

theorem layoutRow_f7 (m6 m7 : Option Int) (r : Row) (m : Int)
    (hb : r.block = "f") (hper : r.period = 7) (hm : m7 = some m) :
    (layoutRow m6 m7 r).x = some (((r.atomic_number - m + 3 : Int) : ℚ)) ∧
    (layoutRow m6 m7 r).y = some (((r.period : ℚ)) + 5 / 2) := by
  subst hm
  unfold layoutRow labelStep fAdjust step1
  cases r.group_id <;> cases m6 <;> simp [hb, hper]

theorem mem_fAN {rows : List Row} {p : Int} {r : Row} (hr : r ∈ rows)
    (hb : r.block = "f") (hper : r.period = p) : r.atomic_number ∈ fAN rows p := by
  unfold fAN
  apply List.mem_map_of_mem
  rw [List.mem_filter]
  exact ⟨hr, by simp [hb, hper]⟩

theorem fAN_mem {rows : List Row} {p : Int} {a : Int} (ha : a ∈ fAN rows p) :
    ∃ r ∈ rows, r.block = "f" ∧ r.period = p ∧ r.atomic_number = a := by
  unfold fAN at ha
  rcases List.mem_map.mp ha with ⟨r, hrf, hra⟩
  rw [List.mem_filter] at hrf
  have hcond := hrf.2
  simp only [Bool.and_eq_true, beq_iff_eq] at hcond
  exact ⟨r, hrf.1, hcond.1, hcond.2, hra⟩

/-- C1: for each period p in {6, 7}, `add_plot_columns` gives every row with
`block == 'f'` and `period == p` the coordinates `x = atomic_number - min_an + 3`
(where `min_an` is the minimum atomic number of those rows) and
`y = p + 2.5`; consequently the minimum x of the band is 3, x follows
atomic-number order, and for period 6 the band sits at y = 8.5. -/
theorem c1_fblock_reprojection (rows : List Row) (p : Int) (hp : p = 6 ∨ p = 7)
    (m : Int) (hm : fMin rows p = some m) :
    (∀ r ∈ add_plot_columns rows, r.block = "f" → r.period = p →
        r.x = some (((r.atomic_number - m + 3 : Int) : ℚ)) ∧
        r.y = some ((p : ℚ) + 5 / 2)) ∧
    (∃ r ∈ add_plot_columns rows, r.block = "f" ∧ r.period = p ∧ r.x = some 3) ∧
    (∀ r ∈ add_plot_columns rows, r.block = "f" → r.period = p →
        ∀ q : ℚ, r.x = some q → 3 ≤ q) ∧
    (∀ r₁ ∈ add_plot_columns rows, ∀ r₂ ∈ add_plot_columns rows,
        r₁.block = "f" → r₁.period = p → r₂.block = "f" → r₂.period = p →
        r₁.atomic_number < r₂.atomic_number →
        ∀ q₁ q₂ : ℚ, r₁.x = some q₁ → r₂.x = some q₂ → q₁ < q₂) ∧
    (p = 6 → ∀ r ∈ add_plot_columns rows, r.block = "f" → r.period = p →
        r.y = some (17 / 2)) := by
  have hmain : ∀ r ∈ add_plot_columns rows, r.block = "f" → r.period = p →
      r.x = some (((r.atomic_number - m + 3 : Int) : ℚ)) ∧
      r.y = some ((p : ℚ) + 5 / 2) := by
    intro r hr hb hper
    rw [apc_eq] at hr
    rcases List.mem_map.mp hr with ⟨r0, hr0, rfl⟩
    obtain ⟨hba, hbb, hbp, _⟩ := layoutRow_base (fMin rows 6) (fMin rows 7) r0
    rw [hbb] at hb
    rw [hbp] at hper
    rcases hp with rfl | rfl
    · have h := layoutRow_f6 (fMin rows 6) (fMin rows 7) r0 m hb hper hm
      rw [hba]
      exact ⟨h.1, by rw [h.2, hper]⟩
    · have h := layoutRow_f7 (fMin rows 6) (fMin rows 7) r0 m hb hper hm
      rw [hba]
      exact ⟨h.1, by rw [h.2, hper]⟩
  refine ⟨hmain, ?_, ?_, ?_, ?_⟩
  · have hmem := listMin_mem hm
    rcases fAN_mem hmem with ⟨r0, hr0, hb0, hp0, ha0⟩
    refine ⟨layoutRow (fMin rows 6) (fMin rows 7) r0, ?_, ?_⟩
    · rw [apc_eq]
      exact List.mem_map_of_mem _ hr0
    · obtain ⟨hba, hbb, hbp, _⟩ := layoutRow_base (fMin rows 6) (fMin rows 7) r0
      have hx := (hmain _ (by rw [apc_eq]; exact List.mem_map_of_mem _ hr0)
        (by rw [hbb]; exact hb0) (by rw [hbp]; exact hp0)).1
      refine ⟨by rw [hbb]; exact hb0, by rw [hbp]; exact hp0, ?_⟩
      rw [hx, hba, ha0]
      norm_num
  · intro r hr hb hper q hq
    have hx := (hmain r hr hb hper).1
    rw [hx] at hq
    injection hq with hq
    subst hq
    have hanm : m ≤ r.atomic_number := by
      rw [apc_eq] at hr
      rcases List.mem_map.mp hr with ⟨r0, hr0, rfl⟩
      obtain ⟨hba, hbb, hbp, _⟩ := layoutRow_base (fMin rows 6) (fMin rows 7) r0
      rw [hba]
      exact listMin_le hm _ (mem_fAN hr0 (by rw [hbb] at hb; exact hb)
        (by rw [hbp] at hper; exact hper))
    push_cast
    have : (m : ℚ) ≤ (r.atomic_number : ℚ) := by exact_mod_cast hanm
    linarith
  · intro r₁ hr₁ r₂ hr₂ hb₁ hp₁ hb₂ hp₂ hlt q₁ q₂ hq₁ hq₂
    have hx₁ := (hmain r₁ hr₁ hb₁ hp₁).1
    have hx₂ := (hmain r₂ hr₂ hb₂ hp₂).1
    rw [hx₁] at hq₁
    rw [hx₂] at hq₂
    injection hq₁ with hq₁
    injection hq₂ with hq₂
    subst hq₁
    subst hq₂
    push_cast
    have : (r₁.atomic_number : ℚ) < (r₂.atomic_number : ℚ) := by exact_mod_cast hlt
    linarith
  · rintro rfl r hr hb hper
    have hy := (hmain r hr hb hper).2
    rw [hy]
    norm_num

theorem c1_witness :
    fMin [hRow, ceRow, prRow] 6 = some 58 ∧
    (∀ r ∈ add_plot_columns [hRow, ceRow, prRow], r.block = "f" → r.period = 6 →
        r.x = some (((r.atomic_number - 58 + 3 : Int) : ℚ)) ∧
        r.y = some (((6 : Int) : ℚ) + 5 / 2)) :=
  ⟨by decide,
   (c1_fblock_reprojection [hRow, ceRow, prRow] 6 (Or.inl rfl) 58 (by decide)).1⟩

/-- C5 counterexample: on a table whose single row has null group_id and is
not an f-block period-6/7 row, `add_plot_columns` leaves x null (the claim
asserts every row of every input table ends with non-null x). -/
theorem c5_counterexample :
    (add_plot_columns [sRowNoGroup]).map Row.x = [none] ∧
    (add_plot_columns [sRowNoGroup]).map Row.y = [some 1] := by decide

/-- C5 amended: after `add_plot_columns` every row has non-null y, and every
row that has a non-null group_id or lies in an f-block mask (block 'f',
period 6 or 7) has non-null x. -/
theorem c5_nonnull_coordinates (rows : List Row) :
    ∀ r ∈ add_plot_columns rows, r.y ≠ none ∧
      ((r.group_id ≠ none ∨ (r.block = "f" ∧ (r.period = 6 ∨ r.period = 7))) →
        r.x ≠ none) := by
  intro r hr
  rw [apc_eq] at hr
  rcases List.mem_map.mp hr with ⟨r0, hr0, rfl⟩
  obtain ⟨hba, hbb, hbp, hbg⟩ := layoutRow_base (fMin rows 6) (fMin rows 7) r0
  refine ⟨layoutRow_y_some _ _ _, ?_⟩
  rintro (hg | ⟨hb, hper⟩)
  · rw [hbg] at hg
    cases hgid : r0.group_id with
    | none => exact absurd hgid hg
    | some g => exact layoutRow_x_group _ _ _ g hgid
  · rw [hbb] at hb
    rw [hbp] at hper
    rcases hper with h6 | h7
    · have hmem := mem_fAN hr0 hb h6
      have hsome : ∃ m, fMin rows 6 = some m := by
        cases hfm : fMin rows 6 with
        | none =>
          exfalso
          unfold fMin at hfm
          rw [listMin_eq_none_nil hfm] at hmem
          simp at hmem
        | some m => exact ⟨m, rfl⟩
      obtain ⟨m, hfm⟩ := hsome
      have hx := (layoutRow_f6 (fMin rows 6) (fMin rows 7) r0 m hb h6 hfm).1
      rw [hx]
      simp
    · have hmem := mem_fAN hr0 hb h7
      have hsome : ∃ m, fMin rows 7 = some m := by
        cases hfm : fMin rows 7 with
        | none =>
          exfalso
          unfold fMin at hfm
          rw [listMin_eq_none_nil hfm] at hmem
          simp at hmem
        | some m => exact ⟨m, rfl⟩
      obtain ⟨m, hfm⟩ := hsome
      have hx := (layoutRow_f7 (fMin rows 6) (fMin rows 7) r0 m hb h7 hfm).1
      rw [hx]
      simp

theorem apc_sample : add_plot_columns [hRow, ceRow] = [hRowLaid, ceRowLaid] := by
  norm_num [add_plot_columns, fStep, fMin, fAN, listMin, step1, fAdjust, labelStep,
            hRow, ceRow, hRowLaid, ceRowLaid, row0]
  rfl

theorem c5_witness : ceRowLaid.y ≠ none ∧ ceRowLaid.x ≠ none :=
  ⟨(c5_nonnull_coordinates [hRow, ceRow] ceRowLaid (by
      rw [apc_sample]
      exact List.mem_cons_of_mem _ (List.mem_cons_self _ _))).1,
   (c5_nonnull_coordinates [hRow, ceRow] ceRowLaid (by
      rw [apc_sample]
      exact List.mem_cons_of_mem _ (List.mem_cons_self _ _))).2 (by decide)⟩

theorem layoutRow_idem (m6 m7 : Option Int) (r : Row) :
    layoutRow m6 m7 (layoutRow m6 m7 r) = layoutRow m6 m7 r := by
  by_cases h6 : r.block = "f" ∧ r.period = 6 <;>
    by_cases h7 : r.block = "f" ∧ r.period = 7 <;>
      cases hg : r.group_id <;> cases m6 <;> cases m7 <;>
        simp only [layoutRow, labelStep, fAdjust, step1, hg, h6, h7,
          and_false, and_true, if_true, if_false, not_false_iff, if_neg, if_pos,
          Option.map_some] <;>
        rfl

theorem apc_idem (rows : List Row) :
    add_plot_columns (add_plot_columns rows) = add_plot_columns rows := by
  conv_lhs => rw [apc_eq (add_plot_columns rows)]
  rw [fMin_apc, fMin_apc]
  conv_lhs => rw [apc_eq rows]
  rw [List.map_map]
  conv_rhs => rw [apc_eq rows]
  exact List.map_congr_left (fun r _ => layoutRow_idem _ _ r)

/-- C6: applying the layout derivation twice yields exactly the same x, y,
y_symbol, y_anumber and y_name columns as applying it once — the label
offsets do not accumulate. -/
theorem c6_layout_idempotent (rows : List Row) :
    (add_plot_columns (add_plot_columns rows)).map Row.x =
      (add_plot_columns rows).map Row.x ∧
    (add_plot_columns (add_plot_columns rows)).map Row.y =
      (add_plot_columns rows).map Row.y ∧
    (add_plot_columns (add_plot_columns rows)).map Row.y_symbol =
      (add_plot_columns rows).map Row.y_symbol ∧
    (add_plot_columns (add_plot_columns rows)).map Row.y_anumber =
      (add_plot_columns rows).map Row.y_anumber ∧
    (add_plot_columns (add_plot_columns rows)).map Row.y_name =
      (add_plot_columns rows).map Row.y_name := by
  rw [apc_idem]
  exact ⟨rfl, rfl, rfl, rfl, rfl⟩

theorem fAN_eq_nil {rows : List Row} {p : Int}
    (h : ∀ r ∈ rows, ¬(r.block = "f" ∧ r.period = p)) : fAN rows p = [] := by
  induction rows with
  | nil => rfl
  | cons r t ih =>
    rw [fAN_cons]
    have hr := h r (List.mem_cons_self _ _)
    have hcond : ¬((r.block == "f" && r.period == p) = true) := by
      simp only [Bool.and_eq_true, beq_iff_eq]
      exact hr
    rw [if_neg hcond]
    exact ih (fun r' hr' => h r' (List.mem_cons_of_mem _ hr'))

/-- C7: if a table has no row with block 'f' and the given period, the
f-block re-projection step for that period returns the table unchanged
(the empty selection raises nothing and assigns nothing). -/
theorem c7_empty_fblock_noop (rows : List Row) (p : Int)
    (h : ∀ r ∈ rows, ¬(r.block = "f" ∧ r.period = p)) : fStep rows p = rows := by
  have hmin : fMin rows p = none := by
    unfold fMin
    rw [fAN_eq_nil h]
    rfl
  unfold fStep
  rw [hmin]
  have hmap : List.map (fAdjust p none) rows = List.map id rows :=
    List.map_congr_left (fun r _ => rfl)
  rw [hmap, List.map_id]

theorem c7_witness :
    (∀ r ∈ [hRow], ¬(r.block = "f" ∧ r.period = 6)) ∧ fStep [hRow] 6 = [hRow] :=
  ⟨by decide, c7_empty_fblock_noop [hRow] 6 (by decide)⟩

theorem colormap_column_ok {df : List Row} {column : Row → Option ℚ}
    {cmap missing : String} {df2 : List Row} {out : List String}
    (h : colormap_column df column cmap missing = .ok (df2, out)) :
    df2 = df ∧ out.length = df.length ∧
    ∀ i (hi : i < out.length) (hi' : i < df.length),
      (column (df.get ⟨i, hi'⟩) = none → out.get ⟨i, hi⟩ = missing) ∧
      (column (df.get ⟨i, hi'⟩) ≠ none → ∃ c, out.get ⟨i, hi⟩ = rgb2hex c) := by
  unfold colormap_column at h
  cases hcm : get_cmap cmap with
  | none => rw [hcm] at h; exact absurd h (by simp)
  | some cm =>
    rw [hcm] at h
    simp only [Except.ok.injEq, Prod.mk.injEq] at h
    obtain ⟨hdf, hout⟩ := h
    subst hdf
    subst hout
    refine ⟨rfl, by simp, ?_⟩
    intro i hi hi'
    constructor
    · intro hnone
      rw [List.get_eq_getElem] at hnone
      simp only [List.get_eq_getElem, List.getElem_zipWith, List.getElem_map, hnone,
        Option.isNone_none, if_true]
    · intro hsome
      rw [List.get_eq_getElem] at hsome
      simp only [List.get_eq_getElem, List.getElem_zipWith, List.getElem_map]
      cases hv : column df[i] with
      | none => exact absurd hv hsome
      | some v =>
        simp only [Option.isNone_some, Bool.false_eq_true, if_false]
        exact ⟨_, rfl⟩

/-- C4: for every table, column and registered colormap, `colormap_column`
returns (alongside the untouched input frame) a color column of the same
length, positionally aligned, in which every null input maps to exactly the
missing color. -/
theorem c4_colormap_alignment (df : List Row) (column : Row → Option ℚ)
    (cmap missing : String) (cm : Colormap) (hcm : get_cmap cmap = some cm) :
    ∃ out : List String, colormap_column df column cmap missing = .ok (df, out) ∧
      out.length = df.length ∧
      ∀ i (hi : i < out.length) (hi' : i < df.length),
        column (df.get ⟨i, hi'⟩) = none → out.get ⟨i, hi⟩ = missing := by
  have hok : ∃ out, colormap_column df column cmap missing = .ok (df, out) := by
    unfold colormap_column
    rw [hcm]
    exact ⟨_, rfl⟩
  obtain ⟨out, hout⟩ := hok
  obtain ⟨-, hlen, hget⟩ := colormap_column_ok hout
  exact ⟨out, hout, hlen, fun i hi hi' hn => (hget i hi hi').1 hn⟩

theorem c4_witness :
    get_cmap "viridis" = some ⟨modelShade⟩ ∧
    (∃ out : List String,
      colormap_column [qRow, ceRow] (fun r => r.property) "viridis" "#ff00ff" =
        .ok ([qRow, ceRow], out) ∧
      out.length = ([qRow, ceRow] : List Row).length ∧
      ∀ i (hi : i < out.length) (hi' : i < ([qRow, ceRow] : List Row).length),
        (fun (r : Row) => r.property) (([qRow, ceRow] : List Row).get ⟨i, hi'⟩) = none →
          out.get ⟨i, hi⟩ = "#ff00ff") :=
  ⟨rfl, c4_colormap_alignment [qRow, ceRow] (fun r => r.property) "viridis" "#ff00ff"
    ⟨modelShade⟩ rfl⟩

/-- C8: `colormap_column` fails — with the UnknownColormap error, before any
color is produced — exactly when the requested colormap name is not
registered; on every registered name it succeeds. -/
theorem c8_unknown_colormap (df : List Row) (column : Row → Option ℚ)
    (cmap missing : String) :
    ((∃ e, colormap_column df column cmap missing = .error e) ↔
        get_cmap cmap = none) ∧
    (∀ e, colormap_column df column cmap missing = .error e →
        e = "UnknownColormap") := by
  constructor
  · constructor
    · rintro ⟨e, he⟩
      unfold colormap_column at he
      cases hcm : get_cmap cmap with
      | none => rfl
      | some cm => rw [hcm] at he; exact absurd he (by simp)
    · intro hnone
      refine ⟨"UnknownColormap", ?_⟩
      unfold colormap_column
      rw [hnone]
  · intro e he
    unfold colormap_column at he
    cases hcm : get_cmap cmap with
    | none =>
      rw [hcm] at he
      simpa using he.symm
    | some cm => rw [hcm] at he; exact absurd he (by simp)

theorem c8_witness :
    get_cmap "nope" = none ∧
    (∃ e, colormap_column [qRow] (fun r => r.property) "nope" "#ffffff" = .error e) :=
  ⟨rfl,
   (c8_unknown_colormap [qRow] (fun r => r.property) "nope" "#ffffff").1.mpr rfl⟩

/-- C9: `colormap_column` never modifies its input table: on success the
frame it hands back is the input frame itself, unchanged — the color column
lives in a fresh one-column frame. -/
theorem c9_input_unchanged (df : List Row) (column : Row → Option ℚ)
    (cmap missing : String) (pr : List Row × List String)
    (h : colormap_column df column cmap missing = .ok pr) : pr.1 = df :=
  (colormap_column_ok (show colormap_column df column cmap missing = .ok (pr.1, pr.2)
    from h)).1

theorem c9_witness :
    colormap_column [qRow, ceRow] (fun r => r.property) "viridis" "#ff00ff" =
      .ok ([qRow, ceRow], ["#000000", "#ff00ff"]) ∧
    (([qRow, ceRow], ["#000000", "#ff00ff"]) :
      List Row × List String).1 = [qRow, ceRow] := by
  have he : colormap_column [qRow, ceRow] (fun r => r.property) "viridis" "#ff00ff" =
      .ok ([qRow, ceRow], ["#000000", "#ff00ff"]) := by
    norm_num [colormap_column, get_cmap, cmapRegistry, listMin, listMax, normalizeQ,
              modelShade, clampByte, badRGB, rgb2hex, hexDig, hexChars, qRow, ceRow, row0]
    all_goals simp
  exact ⟨he, c9_input_unchanged [qRow, ceRow] (fun r => r.property) "viridis" "#ff00ff"
    ([qRow, ceRow], ["#000000", "#ff00ff"]) he⟩

theorem mem_zipWith {f : Row → String → Row} {as : List Row} {bs : List String}
    {r : Row} (hr : r ∈ List.zipWith f as bs) :
    ∃ (i : Nat) (hi : i < as.length) (hi' : i < bs.length),
      r = f (as.get ⟨i, hi⟩) (bs.get ⟨i, hi'⟩) := by
  rcases List.mem_iff_get.mp hr with ⟨⟨i, hilen⟩, hget⟩
  have hi : i < as.length :=
    lt_of_lt_of_le hilen (by rw [List.length_zipWith]; exact Nat.min_le_left _ _)
  have hi' : i < bs.length :=
    lt_of_lt_of_le hilen (by rw [List.length_zipWith]; exact Nat.min_le_right _ _)
  refine ⟨i, hi, hi', ?_⟩
  rw [← hget]
  simp only [List.get_eq_getElem, List.getElem_zipWith]

/-- Common shape of the handled `set_colors` branches: every produced row
carries the color of its position, which is either the missing color or a
`rgb2hex` value, and a null color input yields exactly the missing color. -/
theorem colored_rows_spec (cb : String) {dfX : List Row} {cols : List String}
    {cmap : String} {colFn : Row → Option ℚ}
    (hcc : colormap_column dfX colFn cmap "#ffffff" = .ok (dfX, cols))
    (upd : Row → String → Row)
    (hupd : ∀ r c, (upd r c).color = some c)
    (hinp : ∀ r c, colorInput cb (upd r c) = colorInput cb r)
    (hagree : ∀ r, colorInput cb r = colFn r)
    {r : Row} (hr : r ∈ List.zipWith upd dfX cols) :
    ∃ c, r.color = some c ∧ isHexColor c = true ∧
      (colorInput cb r = none → c = "#ffffff") := by
  obtain ⟨-, hlen, hget⟩ := colormap_column_ok hcc
  rcases mem_zipWith hr with ⟨i, hi, hi', rfl⟩
  refine ⟨cols.get ⟨i, hi'⟩, hupd _ _, ?_, ?_⟩
  · by_cases hn : colFn (dfX.get ⟨i, hi⟩) = none
    · rw [(hget i hi' hi).1 hn]
      decide
    · rcases (hget i hi' hi).2 hn with ⟨cc, hcc'⟩
      rw [hcc']
      exact isHexColor_rgb2hex cc
  · intro hnone
    rw [hinp, hagree] at hnone
    exact (hget i hi' hi).1 hnone

/-- C3 counterexample: `set_colors` with the colorby value `"None"` (offered
by the category picker) takes no branch: the table comes back with its color
column still unset, so not every colorby value yields a colored table. -/
theorem c3_counterexample :
    set_colors [qRow] "None" "viridis" = .ok [qRow] ∧ qRow.color = none :=
  ⟨rfl, rfl⟩

/-- C3 amended: for the five handled colorby values, whenever `set_colors`
succeeds every row of the result carries a color that is a valid 7-character
`#rrggbb` hex string, and rows whose color input is null/NaN get exactly the
configured fallback `#ffffff`; other colorby values return the table
unchanged, the color column possibly unset. -/
theorem c3_colors_valid (df : List Row) (colorby cmap : String) (rows' : List Row)
    (hc : colorby = "block" ∨ colorby = "period" ∨ colorby = "group_id" ∨
          colorby = "series_id" ∨ colorby = "property")
    (h : set_colors df colorby cmap = .ok rows') :
    ∀ r ∈ rows', ∃ c, r.color = some c ∧ isHexColor c = true ∧
      (colorInput colorby r = none → c = "#ffffff") := by
  intro r hr
  rcases hc with rfl | rfl | rfl | rfl | rfl
  · rw [set_colors, if_pos rfl] at h
    cases hcc : colormap_column (df.map (fun r => { r with temp := some (blockCode df r.block) }))
        (fun r => r.temp) cmap "#ffffff" with
    | error e => rw [hcc] at h; exact absurd h (by simp)
    | ok pr =>
      obtain ⟨df2, cols⟩ := pr
      rw [hcc] at h
      simp only [Except.ok.injEq] at h
      obtain rfl := (colormap_column_ok hcc).1
      subst h
      exact colored_rows_spec "block" hcc
        (fun r c => { r with color := some c, legend := some r.block })
        (fun r c => rfl) (fun r c => rfl) (fun r => rfl) hr
  · rw [set_colors, if_neg (by decide), if_pos rfl] at h
    cases hcc : colormap_column df (fun r => some ((r.period : ℚ))) cmap "#ffffff" with
    | error e => rw [hcc] at h; exact absurd h (by simp)
    | ok pr =>
      obtain ⟨df2, cols⟩ := pr
      rw [hcc] at h
      simp only [Except.ok.injEq] at h
      obtain rfl := (colormap_column_ok hcc).1
      subst h
      exact colored_rows_spec "period" hcc
        (fun r c => { r with color := some c, legend := some (toString r.period) })
        (fun r c => rfl) (fun r c => rfl) (fun r => rfl) hr
  · rw [set_colors, if_neg (by decide), if_neg (by decide), if_pos rfl] at h
    cases hcc : colormap_column df (fun r => r.group_id.map (fun g => (g : ℚ)))
        cmap "#ffffff" with
    | error e => rw [hcc] at h; exact absurd h (by simp)
    | ok pr =>
      obtain ⟨df2, cols⟩ := pr
      rw [hcc] at h
      simp only [Except.ok.injEq] at h
      obtain rfl := (colormap_column_ok hcc).1
      subst h
      exact colored_rows_spec "group_id" hcc
        (fun r c => { r with color := some c, legend := r.name_group })
        (fun r c => rfl) (fun r c => rfl) (fun r => rfl) hr
  · rw [set_colors, if_neg (by decide), if_neg (by decide), if_neg (by decide),
        if_pos rfl] at h
    cases hcc : colormap_column df (fun r => r.series_id.map (fun s => (s : ℚ)))
        cmap "#ffffff" with
    | error e => rw [hcc] at h; exact absurd h (by simp)
    | ok pr =>
      obtain ⟨df2, cols⟩ := pr
      rw [hcc] at h
      simp only [Except.ok.injEq] at h
      obtain rfl := (colormap_column_ok hcc).1
      subst h
      exact colored_rows_spec "series_id" hcc
        (fun r c => { r with color := some c, legend := r.name_series })
        (fun r c => rfl) (fun r c => rfl) (fun r => rfl) hr
  · rw [set_colors, if_neg (by decide), if_neg (by decide), if_neg (by decide),
        if_neg (by decide), if_pos rfl] at h
    cases hcc : colormap_column df (fun r => r.property) cmap "#ffffff" with
    | error e => rw [hcc] at h; exact absurd h (by simp)
    | ok pr =>
      obtain ⟨df2, cols⟩ := pr
      rw [hcc] at h
      simp only [Except.ok.injEq] at h
      obtain rfl := (colormap_column_ok hcc).1
      subst h
      exact colored_rows_spec "property" hcc
        (fun r c => { r with color := some c })
        (fun r c => rfl) (fun r c => rfl) (fun r => rfl) hr

theorem c3_sample :
    set_colors [qRow, ceRow] "series_id" "viridis" = .ok c3RowsOut := by
  norm_num [set_colors, colormap_column, get_cmap, cmapRegistry, listMin, listMax,
            normalizeQ, modelShade, clampByte, badRGB, rgb2hex, hexDig, hexChars,
            qRow, ceRow, row0, c3RowsOut]
  all_goals simp

theorem c3_witness :
    set_colors [qRow, ceRow] "series_id" "viridis" = .ok c3RowsOut ∧
    (∀ r ∈ c3RowsOut, ∃ c, r.color = some c ∧ isHexColor c = true ∧
      (colorInput "series_id" r = none → c = "#ffffff")) :=
  ⟨c3_sample,
   c3_colors_valid [qRow, ceRow] "series_id" "viridis" c3RowsOut
     (Or.inr (Or.inr (Or.inr (Or.inl rfl)))) c3_sample⟩

/-- C10: with colorby 'block', `set_colors` mutates the table beyond the
contracted color/legend columns: every row of the result still carries a
temp column holding the integer code of its block value (index of the block
in first-appearance order), and nothing removes it. -/
theorem c10_temp_column (df : List Row) (cmap : String) (rows' : List Row)
    (h : set_colors df "block" cmap = .ok rows') :
    rows'.length = df.length ∧
    ∀ (i : Nat) (hi : i < rows'.length) (hi' : i < df.length),
      (rows'.get ⟨i, hi⟩).temp = some (blockCode df ((df.get ⟨i, hi'⟩).block)) := by
  rw [set_colors, if_pos rfl] at h
  cases hcc : colormap_column (df.map (fun r => { r with temp := some (blockCode df r.block) }))
      (fun r => r.temp) cmap "#ffffff" with
  | error e => rw [hcc] at h; exact absurd h (by simp)
  | ok pr =>
    obtain ⟨df2, cols⟩ := pr
    rw [hcc] at h
    simp only [Except.ok.injEq] at h
    obtain rfl := (colormap_column_ok hcc).1
    subst h
    obtain ⟨-, hlen, -⟩ := colormap_column_ok hcc
    rw [List.length_map] at hlen
    constructor
    · rw [List.length_zipWith, List.length_map, hlen, Nat.min_self]
    · intro i hi hi'
      rw [List.get_eq_getElem, List.get_eq_getElem, List.getElem_zipWith]
      simp only [List.getElem_map]

theorem c10_sample :
    set_colors [qRow, ceRow] "block" "viridis" = .ok [qRowColored, ceRowColored] := by
  norm_num [set_colors, blockCode, uniqueBlocks, uniquesAux, colormap_column, get_cmap,
            cmapRegistry, listMin, listMax, normalizeQ, modelShade, clampByte, badRGB,
            rgb2hex, hexDig, hexChars, qRow, ceRow, row0, qRowColored, ceRowColored,
            List.indexOf, List.findIdx, List.findIdx.go]
  all_goals simp

theorem c10_witness :
    set_colors [qRow, ceRow] "block" "viridis" = .ok [qRowColored, ceRowColored] ∧
    (([qRowColored, ceRowColored] : List Row).length = ([qRow, ceRow] : List Row).length ∧
     ∀ (i : Nat) (hi : i < ([qRowColored, ceRowColored] : List Row).length)
       (hi' : i < ([qRow, ceRow] : List Row).length),
       (([qRowColored, ceRowColored] : List Row).get ⟨i, hi⟩).temp =
         some (blockCode [qRow, ceRow] ((([qRow, ceRow] : List Row).get ⟨i, hi'⟩).block))) :=
  ⟨c10_sample, c10_temp_column [qRow, ceRow] "viridis" _ c10_sample⟩

/-- C2 counterexample: a null value formats to the string "nan", not to the
empty string the claim requires. -/
theorem c2_counterexample :
    formatProp [Cell.null] = [Cell.st "nan"] ∧ ("nan" : String) ≠ "" :=
  ⟨rfl, by decide⟩

/-- C2 amended: on a float64 column the formatter turns every cell into the
plain decimal string of its value rounded (half-even) to 4 decimals — nulls
become "nan" (not ""), and the result is not zero-padded (e.g. 1.0 gives
"1.0", not "1.0000"); 3.14159265 does give "3.1416"; non-float columns are
left entirely unchanged. -/
theorem c2_formatting (col : List Cell) :
    (isFloatDtype col = true →
      formatProp col = col.map (fun c =>
        match c with
        | .null => .st "nan"
        | .fl q => .st (str4 (npRound4 q))
        | .iv n => .st (toString n)
        | .st s => .st s)) ∧
    (isFloatDtype col = false → formatProp col = col) ∧
    formatProp [Cell.fl (314159265 / 100000000)] = [Cell.st "3.1416"] ∧
    formatProp [Cell.fl 1] = [Cell.st "1.0"] := by
  refine ⟨?_, ?_, ?_, ?_⟩
  · intro hf
    unfold formatProp
    rw [if_pos hf]
    unfold astypeStr roundCol
    rw [List.map_map]
    apply List.map_congr_left
    intro c _
    cases c <;> rfl
  · intro hf
    simp [formatProp, hf]
  · norm_num [formatProp, isFloatDtype, roundCol, astypeStr, npRound4, roundHalfEven,
              str4, frac4Str, round_eq, Int.floor_eq_iff]
    rfl
  · norm_num [formatProp, isFloatDtype, roundCol, astypeStr, npRound4, roundHalfEven,
              str4, frac4Str, round_eq, Int.floor_eq_iff]
    rfl

theorem c2_witness :
    isFloatDtype [Cell.null] = true ∧ formatProp [Cell.null] = [Cell.st "nan"] :=
  ⟨rfl, by
    have h := (c2_formatting [Cell.null]).1 rfl
    simpa using h⟩

end Mendel
